import Mathlib

/-!
Verification of the CSS backdrop-filter patcher (fix_backdrop_filter.py).

The program is a pure line-oriented text transform plus a small file driver.
We embed it shallowly: a line is a list of characters, the document is the
list of lines obtained by splitting the file content on the newline
character, and the patcher threads the original previous line through a
single scan, exactly as the Python loop does with lines[i-1].
-/

/-- Characters matched by Python's regex class \s on str patterns
(ASCII whitespace, the information separators, and Unicode whitespace). -/
def isPySpace (c : Char) : Bool :=
  c = ' ' || c = '\t' || c = '\n' || c = '\r' || c = '\x0b' || c = '\x0c' ||
  c = '\x1c' || c = '\x1d' || c = '\x1e' || c = '\x1f' || c = '\x85' || c = '\xa0' ||
  c = '\u1680' || ('\u2000' ≤ c && c ≤ '\u200a') || c = '\u2028' || c = '\u2029' ||
  c = '\u202f' || c = '\u205f' || c = '\u3000'

/-- A text line, as a list of characters (it never contains a newline). -/
abbrev Line := List Char

/-- The literal part of the pattern r'^(\s+)backdrop-filter:\s*(.*?);$'. -/
def litDecl : Line := "backdrop-filter:".data

/-- The literal used to build the inserted line in the f-string
f"{indent}-webkit-backdrop-filter: {value};". -/
def webkitLit : Line := "-webkit-backdrop-filter: ".data

/-- The line the Python code builds as webkit_pattern and also inserts:
f"{indent}-webkit-backdrop-filter: {value};". -/
def mkWebkit (ind v : Line) : Line := ind ++ webkitLit ++ v ++ [';']

/-- Semantics of re.match(r'^(\s+)backdrop-filter:\s*(.*?);$', line) on a
newline-free line: the greedy \s+ captures the maximal nonempty run of
leading whitespace, which must be followed by the literal
"backdrop-filter:"; the greedy \s* then eats the maximal whitespace run,
and the lazy (.*?); anchored by $ forces the semicolon to be the final
character, capturing everything in between as the value. Returns the two
captured groups (indent, value), or none when the line does not match.
The helper declTail is what remains of the line after the indent, the
literal and the second whitespace run. -/
def declTail (l : Line) : Line :=
  ((l.dropWhile isPySpace).drop litDecl.length).dropWhile isPySpace

/-- Match result of the declaration pattern on one line; see declTail. -/
def matchDecl (l : Line) : Option (Line × Line) :=
  if l.takeWhile isPySpace = [] then none
  else if litDecl <+: l.dropWhile isPySpace then
    if (declTail l).getLast? = some ';' then
      some (l.takeWhile isPySpace, (declTail l).dropLast)
    else none
  else none

/-- One iteration of the Python for-loop: given the previous original line
(lines[i-1], or "" for the first line) and the current line, the lines
appended to modified_lines for this iteration.  The membership test
mirrors Python's `webkit_pattern not in prev_line`, i.e. contiguous
substring containment. -/
def patchStep (prev l : Line) : List Line :=
  match matchDecl l with
  | some (ind, v) =>
      if mkWebkit ind v <:+: prev then [l] else [mkWebkit ind v, l]
  | none => [l]

/-- The whole scan over the line list, threading the original previous
line exactly as the Python loop reads lines[i-1]. -/
def patchAux (prev : Line) : List Line → List Line
  | [] => []
  | l :: rest => patchStep prev l ++ patchAux l rest

/-- Python's str.split('\n'): splitting the empty text gives one empty
line, and every '\n' starts a fresh line. -/
def splitNl : List Char → List Line
  | [] => [[]]
  | c :: cs =>
    if c = '\n' then [] :: splitNl cs
    else
      match splitNl cs with
      | [] => [[c]]
      | l :: ls => (c :: l) :: ls

/-- Python's '\n'.join on the list of lines. -/
def joinNl : List Line → List Char
  | [] => []
  | [l] => l
  | l :: ls => l ++ '\n' :: joinNl ls

/-- The pure transform fix_backdrop_filter: split the content on newlines,
scan with the conditional insertion, and rejoin with newlines. -/
def fix_backdrop_filter (s : String) : String :=
  String.mk (joinNl (patchAux [] (splitNl s.data)))

/-- Success message printed by main on the happy path. -/
def successMsg : String := "✅ 所有 backdrop-filter 兼容性问题已修复!"

/-- Error message printed by the top-level except handler, with the
description of the caught exception interpolated. -/
def errorMsg (e : String) : String := "❌ 错误: " ++ e

/-- The driver main(): reading may fail, then the pure patch is applied,
then writing may fail; any failure is caught by the single top-level
except which prints one diagnostic line and returns normally.  The result
is the list of printed lines together with the process exit status. -/
def runMain (readRes : Except String String)
    (writeRes : String → Except String Unit) : List String × Nat :=
  match readRes with
  | Except.error e => ([errorMsg e], 0)
  | Except.ok content =>
    match writeRes (fix_backdrop_filter content) with
    | Except.error e => ([errorMsg e], 0)
    | Except.ok _ => ([successMsg], 0)

theorem declTail_suffix (l : Line) : declTail l <:+ l :=
  (List.dropWhile_suffix _).trans ((List.drop_suffix _ _).trans (List.dropWhile_suffix _))

theorem matchDecl_eq_some {l ind v : Line} (h : matchDecl l = some (ind, v)) :
    ind = l.takeWhile isPySpace ∧ l.takeWhile isPySpace ≠ [] ∧
      (declTail l).getLast? = some ';' ∧ v = (declTail l).dropLast := by
  unfold matchDecl at h
  split at h
  · exact absurd h (by simp)
  next hws =>
    split at h
    next hpre =>
      split at h
      next hsc =>
        simp only [Option.some.injEq, Prod.mk.injEq] at h
        exact ⟨h.1.symm, hws, hsc, h.2.symm⟩
      next => exact absurd h (by simp)
    next => exact absurd h (by simp)

theorem ind_spaces {l ind v : Line} (h : matchDecl l = some (ind, v)) :
    ∀ c ∈ ind, isPySpace c = true := by
  obtain ⟨hi, -, -, -⟩ := matchDecl_eq_some h
  subst hi
  intro c hc
  exact List.mem_takeWhile_imp hc

theorem matchDecl_getLast {l ind v : Line} (h : matchDecl l = some (ind, v)) :
    l.getLast? = some ';' := by
  obtain ⟨-, -, hsc, -⟩ := matchDecl_eq_some h
  obtain ⟨pre, hpre⟩ := declTail_suffix l
  have hne : declTail l ≠ [] := by
    intro h0
    rw [h0] at hsc
    exact absurd hsc (by simp)
  rw [← hpre, List.getLast?_append_of_ne_nil pre hne]
  exact hsc

theorem takeWhile_app {xs : List Char} (h : ∀ c ∈ xs, isPySpace c = true)
    {y : Char} (hy : isPySpace y = false) (ys : List Char) :
    (xs ++ y :: ys).takeWhile isPySpace = xs := by
  induction xs with
  | nil =>
    rw [List.nil_append, List.takeWhile_cons_of_neg (by simp [hy])]
  | cons a as ih =>
    have ha := h a (by simp)
    rw [List.cons_append, List.takeWhile_cons_of_pos ha,
      ih (fun c hc => h c (by simp [hc]))]

theorem dropWhile_app {xs : List Char} (h : ∀ c ∈ xs, isPySpace c = true)
    {y : Char} (hy : isPySpace y = false) (ys : List Char) :
    (xs ++ y :: ys).dropWhile isPySpace = y :: ys := by
  induction xs with
  | nil =>
    rw [List.nil_append, List.dropWhile_cons_of_neg (by simp [hy])]
  | cons a as ih =>
    have ha := h a (by simp)
    rw [List.cons_append, List.dropWhile_cons_of_pos ha]
    exact ih (fun c hc => h c (by simp [hc]))

theorem matchDecl_mkWebkit (ind v : Line) (h : ∀ c ∈ ind, isPySpace c = true) :
    matchDecl (mkWebkit ind v) = none := by
  have hd : isPySpace '-' = false := by decide
  have hw : webkitLit = '-' :: "webkit-backdrop-filter: ".data := rfl
  have hshape : mkWebkit ind v =
      ind ++ '-' :: ("webkit-backdrop-filter: ".data ++ (v ++ [';'])) := by
    rw [mkWebkit, List.append_assoc, List.append_assoc, hw, List.cons_append]
  rw [hshape]
  have ht := takeWhile_app h hd ("webkit-backdrop-filter: ".data ++ (v ++ [';']))
  have hdp := dropWhile_app h hd ("webkit-backdrop-filter: ".data ++ (v ++ [';']))
  unfold matchDecl
  rw [ht, hdp]
  by_cases hind : ind = []
  · rw [if_pos hind]
  · rw [if_neg hind]
    have hnp : ¬ (litDecl <+: '-' :: ("webkit-backdrop-filter: ".data ++ (v ++ [';']))) := by
      intro hp
      have hb : litDecl = 'b' :: "ackdrop-filter:".data := rfl
      rw [hb, List.cons_prefix_cons] at hp
      exact absurd hp.1 (by decide)
    rw [if_neg hnp]

theorem patchStep_none {prev l : Line} (h : matchDecl l = none) :
    patchStep prev l = [l] := by
  simp [patchStep, h]

theorem patchStep_skip {prev l ind v : Line} (h : matchDecl l = some (ind, v))
    (hin : mkWebkit ind v <:+: prev) : patchStep prev l = [l] := by
  simp [patchStep, h, hin]

theorem patchStep_ins {prev l ind v : Line} (h : matchDecl l = some (ind, v))
    (hin : ¬ mkWebkit ind v <:+: prev) : patchStep prev l = [mkWebkit ind v, l] := by
  simp [patchStep, h, hin]

theorem patchAux_cons (prev l : Line) (rest : List Line) :
    patchAux prev (l :: rest) = patchStep prev l ++ patchAux l rest := rfl

theorem patchAux_idem (ls : List Line) :
    ∀ prev, patchAux prev (patchAux prev ls) = patchAux prev ls := by
  induction ls with
  | nil => intro prev; rfl
  | cons l rest ih =>
    intro prev
    cases hm : matchDecl l with
    | none =>
      rw [patchAux_cons, patchStep_none hm]
      show patchAux prev (l :: patchAux l rest) = l :: patchAux l rest
      rw [patchAux_cons, patchStep_none hm, ih l]
      rfl
    | some p =>
      obtain ⟨ind, v⟩ := p
      have hsp : ∀ c ∈ ind, isPySpace c = true := ind_spaces hm
      by_cases hin : mkWebkit ind v <:+: prev
      · rw [patchAux_cons, patchStep_skip hm hin]
        show patchAux prev (l :: patchAux l rest) = l :: patchAux l rest
        rw [patchAux_cons, patchStep_skip hm hin, ih l]
        rfl
      · rw [patchAux_cons, patchStep_ins hm hin]
        show patchAux prev (mkWebkit ind v :: l :: patchAux l rest) =
          mkWebkit ind v :: l :: patchAux l rest
        rw [patchAux_cons, patchStep_none (matchDecl_mkWebkit ind v hsp)]
        show mkWebkit ind v :: patchAux (mkWebkit ind v) (l :: patchAux l rest) = _
        rw [patchAux_cons, patchStep_skip hm (List.infix_refl _), ih l]
        rfl

theorem self_sublist_patchStep (prev l : Line) : List.Sublist [l] (patchStep prev l) := by
  unfold patchStep
  cases matchDecl l with
  | none => exact List.Sublist.refl _
  | some p =>
    obtain ⟨ind, v⟩ := p
    dsimp only
    split
    · exact List.Sublist.refl _
    · exact List.Sublist.cons _ (List.Sublist.refl _)

theorem sublist_patchAux (ls : List Line) :
    ∀ prev, List.Sublist ls (patchAux prev ls) := by
  induction ls with
  | nil => intro prev; exact List.Sublist.refl _
  | cons l rest ih =>
    intro prev
    rw [patchAux_cons]
    have h := List.Sublist.append (self_sublist_patchStep prev l) (ih l)
    simpa using h

theorem splitNl_ne_nil (cs : List Char) : splitNl cs ≠ [] := by
  induction cs with
  | nil => simp [splitNl]
  | cons c cs ih =>
    simp only [splitNl]
    by_cases h : c = '\n'
    · simp [h]
    · rw [if_neg h]
      cases hs : splitNl cs with
      | nil => simp
      | cons l ls => simp

theorem no_nl_splitNl (cs : List Char) : ∀ l ∈ splitNl cs, '\n' ∉ l := by
  induction cs with
  | nil =>
    intro l hl
    simp only [splitNl, List.mem_singleton] at hl
    simp [hl]
  | cons c cs ih =>
    intro l hl
    simp only [splitNl] at hl
    by_cases h : c = '\n'
    · rw [if_pos h] at hl
      rcases List.mem_cons.mp hl with h1 | h1
      · simp [h1]
      · exact ih l h1
    · rw [if_neg h] at hl
      cases hs : splitNl cs with
      | nil => exact absurd hs (splitNl_ne_nil cs)
      | cons l0 ls =>
        rw [hs] at hl
        rcases List.mem_cons.mp hl with h1 | h1
        · subst h1
          intro hmem
          rcases List.mem_cons.mp hmem with h2 | h2
          · exact h h2.symm
          · exact ih l0 (by rw [hs]; simp) h2
        · exact ih l (by rw [hs]; simp [h1])

theorem splitNl_cons_ne {c : Char} (hc : ¬ c = '\n') {cs : List Char}
    {l : List Char} {ls : List Line} (hs : splitNl cs = l :: ls) :
    splitNl (c :: cs) = (c :: l) :: ls := by
  simp only [splitNl, if_neg hc, hs]

theorem splitNl_no_nl {l : List Char} (h : '\n' ∉ l) : splitNl l = [l] := by
  induction l with
  | nil => rfl
  | cons c cs ih =>
    have hc : ¬ (c = '\n') := fun hh => h (by simp [hh])
    have hcs : '\n' ∉ cs := fun hh => h (List.mem_cons_of_mem _ hh)
    exact splitNl_cons_ne hc (ih hcs)

theorem splitNl_app {l : List Char} (h : '\n' ∉ l) (cs : List Char) :
    splitNl (l ++ '\n' :: cs) = l :: splitNl cs := by
  induction l with
  | nil => simp [splitNl]
  | cons c l' ih =>
    have hc : ¬ (c = '\n') := fun hh => h (by simp [hh])
    have hl' : '\n' ∉ l' := fun hh => h (List.mem_cons_of_mem _ hh)
    calc splitNl ((c :: l') ++ '\n' :: cs)
        = splitNl (c :: (l' ++ '\n' :: cs)) := rfl
      _ = (c :: l') :: splitNl cs := splitNl_cons_ne hc (ih hl')

theorem splitNl_joinNl : ∀ ls : List Line, ls ≠ [] → (∀ l ∈ ls, '\n' ∉ l) →
    splitNl (joinNl ls) = ls
  | [], hne, _ => absurd rfl hne
  | [l], _, h => by
    show splitNl l = [l]
    exact splitNl_no_nl (h l (by simp))
  | l :: l2 :: ls, _, h => by
    show splitNl (l ++ '\n' :: joinNl (l2 :: ls)) = l :: (l2 :: ls)
    rw [splitNl_app (h l (by simp))]
    rw [splitNl_joinNl (l2 :: ls) (by simp) (fun x hx => h x (by simp [hx]))]

theorem patchAux_ne_nil (prev l : Line) (rest : List Line) :
    patchAux prev (l :: rest) ≠ [] := by
  rw [patchAux_cons]
  have hne : patchStep prev l ≠ [] := by
    unfold patchStep
    cases matchDecl l with
    | none => simp
    | some p =>
      obtain ⟨ind, v⟩ := p
      dsimp only
      split <;> simp
  intro hh
  rw [List.append_eq_nil] at hh
  exact hne hh.1

theorem no_nl_mkWebkit {l ind v : Line} (hm : matchDecl l = some (ind, v))
    (h : '\n' ∉ l) : '\n' ∉ mkWebkit ind v := by
  obtain ⟨hi, -, -, hv⟩ := matchDecl_eq_some hm
  intro hmem
  unfold mkWebkit at hmem
  rcases List.mem_append.mp hmem with h1 | h1
  · rcases List.mem_append.mp h1 with h2 | h2
    · rcases List.mem_append.mp h2 with h3 | h3
      · apply h
        rw [hi] at h3
        exact List.Sublist.mem h3 (List.takeWhile_sublist _)
      · exact absurd h3 (by decide)
    · apply h
      have hsub : List.Sublist (declTail l).dropLast l :=
        (List.dropLast_sublist _).trans (declTail_suffix l).sublist
      exact List.Sublist.mem (hv ▸ h2) hsub
  · exact absurd h1 (by decide)

theorem no_nl_patchAux (ls : List Line) :
    (∀ l ∈ ls, '\n' ∉ l) → ∀ prev, ∀ l' ∈ patchAux prev ls, '\n' ∉ l' := by
  induction ls with
  | nil =>
    intro _ prev l' hl'
    simp [patchAux] at hl'
  | cons l rest ih =>
    intro h prev l' hl'
    rw [patchAux_cons] at hl'
    rcases List.mem_append.mp hl' with h1 | h1
    · unfold patchStep at h1
      cases hm : matchDecl l with
      | none =>
        rw [hm] at h1
        simp only [List.mem_singleton] at h1
        rw [h1]
        exact h l (by simp)
      | some p =>
        obtain ⟨ind, v⟩ := p
        rw [hm] at h1
        dsimp only at h1
        split at h1
        · simp only [List.mem_singleton] at h1
          rw [h1]
          exact h l (by simp)
        · rcases List.mem_cons.mp h1 with h2 | h2
          · rw [h2]
            exact no_nl_mkWebkit hm (h l (by simp))
          · simp only [List.mem_singleton] at h2
            rw [h2]
            exact h l (by simp)
    · exact ih (fun x hx => h x (by simp [hx])) l l' h1

theorem splitNl_fix (s : String) :
    splitNl (fix_backdrop_filter s).data = patchAux [] (splitNl s.data) := by
  show splitNl (joinNl (patchAux [] (splitNl s.data))) = _
  apply splitNl_joinNl
  · cases hs : splitNl s.data with
    | nil => exact absurd hs (splitNl_ne_nil _)
    | cons l ls => exact hs ▸ patchAux_ne_nil [] l ls
  · exact fun l' hl' => no_nl_patchAux _ (no_nl_splitNl s.data) [] l' hl'

/-- Claim C1, counterexample: the de-duplication check is substring
containment, not exact string equality.  For the predecessor line
"  -webkit-backdrop-filter: blur(5px); /* x */", which differs from the
expected prefixed line but contains it as a proper substring, the patcher
performs NO insertion (the two-line input is returned unchanged), whereas
the claim demands an insertion for any predecessor not exactly equal to
the expected line. -/
theorem substring_predecessor_skips_insertion :
    matchDecl "  backdrop-filter: blur(5px);".data =
      some ("  ".data, "blur(5px)".data) ∧
    "  -webkit-backdrop-filter: blur(5px); /* x */".data ≠
      mkWebkit "  ".data "blur(5px)".data ∧
    fix_backdrop_filter
        "  -webkit-backdrop-filter: blur(5px); /* x */\n  backdrop-filter: blur(5px);" =
      "  -webkit-backdrop-filter: blur(5px); /* x */\n  backdrop-filter: blur(5px);" := by
  decide

/-- Claim C1, amended: for every matched line the patcher constructs the
expected prefixed line from the captured indent and value, and it skips
the insertion if and only if that expected line occurs as a contiguous
substring of the immediately preceding original line; otherwise the new
prefixed line is inserted immediately before the current line. -/
theorem dedup_substring_rule (prev l : Line) (rest : List Line) (ind v : Line)
    (h : matchDecl l = some (ind, v)) :
    (mkWebkit ind v <:+: prev →
      patchAux prev (l :: rest) = l :: patchAux l rest) ∧
    (¬ mkWebkit ind v <:+: prev →
      patchAux prev (l :: rest) = mkWebkit ind v :: l :: patchAux l rest) := by
  constructor
  · intro hin
    rw [patchAux_cons, patchStep_skip h hin]
    rfl
  · intro hin
    rw [patchAux_cons, patchStep_ins h hin]
    rfl

/-- Claim C1, witness for the amended rule at a concrete input: the
substring-containing predecessor suppresses the insertion. -/
theorem dedup_substring_rule_witness :
    patchAux "  -webkit-backdrop-filter: blur(5px); /* x */".data
        ["  backdrop-filter: blur(5px);".data] =
      ["  backdrop-filter: blur(5px);".data] :=
  (dedup_substring_rule "  -webkit-backdrop-filter: blur(5px); /* x */".data
    "  backdrop-filter: blur(5px);".data [] "  ".data "blur(5px)".data
    (by decide)).1 (by decide)

/-- Claim C2: the patch operation is idempotent; applying the Line
Patcher to its own output yields that output unchanged, for every input
string. -/
theorem patch_idempotent (s : String) :
    fix_backdrop_filter (fix_backdrop_filter s) = fix_backdrop_filter s := by
  have h1 := splitNl_fix s
  show String.mk (joinNl (patchAux [] (splitNl (fix_backdrop_filter s).data))) = _
  rw [h1, patchAux_idem (splitNl s.data) []]
  rfl

/-- Claim C3: for every input string, the input lines appear in the
output unmodified and in the same relative order (the input line list is
a sublist of the output line list), and the number of output lines is at
least the number of input lines. -/
theorem patch_preserves_lines (s : String) :
    List.Sublist (splitNl s.data) (splitNl (fix_backdrop_filter s).data) ∧
    (splitNl s.data).length ≤ (splitNl (fix_backdrop_filter s).data).length := by
  rw [splitNl_fix s]
  exact ⟨sublist_patchAux _ [], (sublist_patchAux _ []).length_le⟩

/-- Claim C4, counterexample: the indented multi-declaration line
"  backdrop-filter: blur(5px); color: red;" DOES match the pattern (the
lazy value group is stretched by the end anchor up to the final
semicolon), and the patcher does NOT leave the document unmodified: an
insertion occurs before the line. -/
theorem multi_decl_line_matches_cex :
    matchDecl "  backdrop-filter: blur(5px); color: red;".data =
      some ("  ".data, "blur(5px); color: red".data) ∧
    fix_backdrop_filter "  backdrop-filter: blur(5px); color: red;" ≠
      "  backdrop-filter: blur(5px); color: red;" := by
  decide

/-- Claim C4, amended: an indented line holding multiple declarations
that ends in a semicolon matches the pattern with everything up to the
final semicolon captured as the value, so a prefixed copy of the whole
remainder is inserted before it; the original line itself is kept
unmodified in place. -/
theorem multi_decl_line_insertion :
    fix_backdrop_filter "  backdrop-filter: blur(5px); color: red;" =
      "  -webkit-backdrop-filter: blur(5px); color: red;\n  backdrop-filter: blur(5px); color: red;" := by
  decide

/-- Claim C5: for every matched line the inserted line is built from the
captured indent and value as indent ++ "-webkit-backdrop-filter: " ++
value ++ ";" and placed immediately before it; for indent "    " and
value "blur(10px)" the built line is "    -webkit-backdrop-filter: blur(10px);",
and the single-line input "  backdrop-filter: blur(5px);" produces the
claimed two-line output. -/
theorem webkit_line_construction :
    (∀ prev l rest ind v, matchDecl l = some (ind, v) →
      ¬ mkWebkit ind v <:+: prev →
      patchAux prev (l :: rest) =
        (ind ++ "-webkit-backdrop-filter: ".data ++ v ++ [';']) :: l ::
          patchAux l rest) ∧
    mkWebkit "    ".data "blur(10px)".data =
      "    -webkit-backdrop-filter: blur(10px);".data ∧
    fix_backdrop_filter "  backdrop-filter: blur(5px);" =
      "  -webkit-backdrop-filter: blur(5px);\n  backdrop-filter: blur(5px);" := by
  refine ⟨?_, by decide, by decide⟩
  intro prev l rest ind v h hin
  rw [patchAux_cons, patchStep_ins h hin]
  rfl

/-- Claim C5, witness at a concrete matched line with no usable
predecessor. -/
theorem webkit_line_construction_witness :
    patchAux [] ["  backdrop-filter: blur(5px);".data] =
      [("  ".data ++ "-webkit-backdrop-filter: ".data ++ "blur(5px)".data ++ [';']),
        "  backdrop-filter: blur(5px);".data] :=
  webkit_line_construction.1 [] "  backdrop-filter: blur(5px);".data []
    "  ".data "blur(5px)".data (by decide) (by decide)

/-- Claim C6: every failure of the read or write step is caught by the
top-level handler of main, exactly one line is printed, the error line
carries the caught failure's description, no failure is re-raised, and
the exit status is 0 on the success path and on every caught-failure
path.  The patch step itself is a total pure function, so it raises no
failure of its own. -/
theorem driver_error_handling (r : Except String String)
    (w : String → Except String Unit) :
    (runMain r w).2 = 0 ∧ (runMain r w).1.length = 1 ∧
    (∀ e, r = Except.error e → (runMain r w).1 = [errorMsg e]) ∧
    (∀ c e, r = Except.ok c → w (fix_backdrop_filter c) = Except.error e →
      (runMain r w).1 = [errorMsg e]) ∧
    (∀ c, r = Except.ok c → w (fix_backdrop_filter c) = Except.ok () →
      (runMain r w).1 = [successMsg]) := by
  cases r with
  | error e =>
    refine ⟨rfl, rfl, ?_, ?_, ?_⟩
    · intro e' he
      rw [← Except.error.inj he]
      rfl
    · intro c e' hok
      exact absurd hok (by simp)
    · intro c hok
      exact absurd hok (by simp)
  | ok c =>
    cases hw : w (fix_backdrop_filter c) with
    | error e =>
      refine ⟨?_, ?_, ?_, ?_, ?_⟩
      · simp [runMain, hw]
      · simp [runMain, hw]
      · intro e' he
        exact absurd he (by simp)
      · intro c' e' hok hw'
        rw [← Except.ok.inj hok] at hw'
        rw [hw] at hw'
        rw [← Except.error.inj hw']
        simp [runMain, hw]
      · intro c' hok hw'
        rw [← Except.ok.inj hok] at hw'
        rw [hw] at hw'
        exact absurd hw' (by simp)
    | ok u =>
      refine ⟨?_, ?_, ?_, ?_, ?_⟩
      · simp [runMain, hw]
      · simp [runMain, hw]
      · intro e' he
        exact absurd he (by simp)
      · intro c' e' hok hw'
        rw [← Except.ok.inj hok] at hw'
        rw [hw] at hw'
        exact absurd hw' (by simp)
      · intro c' hok hw'
        simp [runMain, hw]

/-- Claim C6, witness: a concrete read failure is reported on one line
containing its description and the exit status is 0. -/
theorem driver_error_handling_witness :
    (runMain (Except.error "boom") (fun _ => Except.ok ())).2 = 0 ∧
    (runMain (Except.error "boom") (fun _ => Except.ok ())).1 =
      [errorMsg "boom"] :=
  ⟨(driver_error_handling (Except.error "boom") (fun _ => Except.ok ())).1,
    (driver_error_handling (Except.error "boom")
      (fun _ => Except.ok ())).2.2.1 "boom" rfl⟩

/-- Claim C7: a line that does not match the declaration pattern is
emitted unchanged in place and never triggers an insertion; in
particular the lines "color: red;" and
"backdrop-filter /* comment */: blur(4px);" do not match. -/
theorem nonmatching_line_passthrough :
    (∀ prev l rest, matchDecl l = none →
      patchAux prev (l :: rest) = l :: patchAux l rest) ∧
    matchDecl "color: red;".data = none ∧
    matchDecl "backdrop-filter /* comment */: blur(4px);".data = none := by
  refine ⟨?_, by decide, by decide⟩
  intro prev l rest h
  rw [patchAux_cons, patchStep_none h]
  rfl

/-- Claim C7, witness at the concrete non-matching line "color: red;". -/
theorem nonmatching_line_passthrough_witness :
    patchAux [] ["color: red;".data] = ["color: red;".data] :=
  nonmatching_line_passthrough.1 [] "color: red;".data [] (by decide)

/-- Claim C8: on the two-line input with a stale mismatched webkit prefix
before the declaration, a fresh prefixed line is inserted between them,
yielding exactly three lines with the stale line left in place. -/
theorem stale_prefix_scenario :
    fix_backdrop_filter
        "  -webkit-backdrop-filter: blur(3px);\n  backdrop-filter: blur(5px);" =
      "  -webkit-backdrop-filter: blur(3px);\n  -webkit-backdrop-filter: blur(5px);\n  backdrop-filter: blur(5px);" ∧
    (splitNl ("  -webkit-backdrop-filter: blur(3px);\n  -webkit-backdrop-filter: blur(5px);\n  backdrop-filter: blur(5px);").data).length = 3 := by
  decide

/-- Claim C9: a line with zero leading whitespace never matches, because
the pattern demands at least one leading whitespace character; such a
line passes through unchanged with no insertion, e.g. the column-zero
line "backdrop-filter: blur(5px);". -/
theorem no_indent_never_matches :
    (∀ prev l rest, (∀ c, l.head? = some c → isPySpace c = false) →
      matchDecl l = none ∧ patchAux prev (l :: rest) = l :: patchAux l rest) ∧
    matchDecl "backdrop-filter: blur(5px);".data = none := by
  refine ⟨?_, by decide⟩
  intro prev l rest h
  have hm : matchDecl l = none := by
    cases l with
    | nil => rfl
    | cons c cs =>
      have hc := h c rfl
      unfold matchDecl
      rw [List.takeWhile_cons_of_neg (by simp [hc]), if_pos rfl]
  refine ⟨hm, ?_⟩
  rw [patchAux_cons, patchStep_none hm]
  rfl

/-- Claim C9, witness at the concrete column-zero declaration line. -/
theorem no_indent_never_matches_witness :
    matchDecl "backdrop-filter: blur(5px);".data = none ∧
    patchAux [] ["backdrop-filter: blur(5px);".data] =
      ["backdrop-filter: blur(5px);".data] :=
  no_indent_never_matches.1 [] "backdrop-filter: blur(5px);".data []
    (fun c hc => by rw [← Option.some.inj hc]; decide)

/-- Claim C10: a line whose final character is a carriage return never
matches, because the pattern requires the semicolon to be the final
character of the line; such lines pass through unchanged and trigger no
insertion. -/
theorem trailing_cr_never_matches (prev l : Line) (rest : List Line)
    (h : l.getLast? = some '\r') :
    matchDecl l = none ∧ patchAux prev (l :: rest) = l :: patchAux l rest := by
  have hm : matchDecl l = none := by
    cases hmd : matchDecl l with
    | none => rfl
    | some p =>
      obtain ⟨ind, v⟩ := p
      have hl := matchDecl_getLast hmd
      rw [h] at hl
      exact absurd (Option.some.inj hl) (by decide)
  refine ⟨hm, ?_⟩
  rw [patchAux_cons, patchStep_none hm]
  rfl

/-- Claim C10, witness at a concrete CRLF-style line. -/
theorem trailing_cr_never_matches_witness :
    matchDecl "  backdrop-filter: blur(5px);\r".data = none ∧
    patchAux [] ["  backdrop-filter: blur(5px);\r".data] =
      ["  backdrop-filter: blur(5px);\r".data] :=
  trailing_cr_never_matches [] "  backdrop-filter: blur(5px);\r".data []
    (by decide)
